import Mathlib

/-!
Verification of the Fire2Scripts event-windowed statistical pipeline.

Numeric cells of the recordings are modelled as rationals (ℚ); values that
the C++ code obtains through `sqrt` or a distribution CDF live in ℝ.
A `Row` is one data row of a recording whose four numeric cells
(time, leftPupil, rightPupil, luminance) all parsed successfully; rows that
fail the column-size check or whose `stod` throws are skipped by the C++
loop via `continue` and contribute nothing, so they are simply absent from
the `List Row` processed here.
-/

namespace Fire2

/-- One parsed data row: time, left pupil, right pupil, luminance
(`noshookpupil.cpp` / `shookpupil.cpp`, loop body of
`calculatePupilAverages`). -/
structure Row where
  time : ℚ
  left : ℚ
  right : ℚ
  lum : ℚ

/-- Accumulated per-window statistics: the sums, valid counts and pushed
sample lists of `calculatePupilAverages` for one window (before or after).
`total` is `beforecount`/`aftercount`: every processed row whose time falls
in the window, whether or not any quantity was valid. -/
structure WinStats where
  leftSum : ℚ
  leftCount : ℕ
  leftSamples : List ℚ
  rightSum : ℚ
  rightCount : ℕ
  rightSamples : List ℚ
  lumSum : ℚ
  lumCount : ℕ
  total : ℕ

def emptyWin : WinStats := ⟨0, 0, [], 0, 0, [], 0, 0, 0⟩

/-- The per-row update of `calculatePupilAverages` for a row inside the
window: a quantity contributes to its sum/count/sample list exactly when
its value is strictly positive (`if (leftPupilSize > 0)` etc.), and the
row always increments the window's total count. -/
def addRow (r : Row) (s : WinStats) : WinStats where
  leftSum := (if 0 < r.left then r.left else 0) + s.leftSum
  leftCount := (if 0 < r.left then 1 else 0) + s.leftCount
  leftSamples := (if 0 < r.left then [r.left] else []) ++ s.leftSamples
  rightSum := (if 0 < r.right then r.right else 0) + s.rightSum
  rightCount := (if 0 < r.right then 1 else 0) + s.rightCount
  rightSamples := (if 0 < r.right then [r.right] else []) ++ s.rightSamples
  lumSum := (if 0 < r.lum then r.lum else 0) + s.lumSum
  lumCount := (if 0 < r.lum then 1 else 0) + s.lumCount
  total := 1 + s.total

/-- The window-collection loop of `calculatePupilAverages`: rows whose
time lies in `[lo, hi]` contribute via `addRow`, the rest are ignored.
(Each iteration of the C++ loop is independent of the others, so the
loop is the fold of the per-row update.) -/
def collectWindow (lo hi : ℚ) (rows : List Row) : WinStats :=
  rows.foldr (fun r s => if lo ≤ r.time ∧ r.time ≤ hi then addRow r s else s) emptyWin

/-- `addRow` applied to every row of a list, ignoring the time window;
reference form used to state which rows a window collects. -/
def collectAll (rows : List Row) : WinStats :=
  rows.foldr addRow emptyWin

lemma collectWindow_nil (lo hi : ℚ) : collectWindow lo hi [] = emptyWin := rfl

lemma collectWindow_cons (lo hi : ℚ) (r : Row) (rest : List Row) :
    collectWindow lo hi (r :: rest) =
      if lo ≤ r.time ∧ r.time ≤ hi then addRow r (collectWindow lo hi rest)
      else collectWindow lo hi rest := by
  simp only [collectWindow, List.foldr_cons]

lemma collectAll_nil : collectAll [] = emptyWin := rfl

lemma collectAll_cons (r : Row) (rest : List Row) :
    collectAll (r :: rest) = addRow r (collectAll rest) := by
  simp only [collectAll, List.foldr_cons]

/-- The validity-thresholded mean of one quantity over one window:
`(count >= total * 0.5) ? sum / count : -1`
(`noshookpupil.cpp:171-176`, `shookpupil.cpp:168-173`). -/
def windowAverage (count total : ℕ) (sum : ℚ) : ℚ :=
  if (total : ℚ) * (1 / 2) ≤ (count : ℚ) then sum / (count : ℚ) else -1

/-- `Σ (x - mean)² / (n - 1)`: the Bessel-corrected sample variance
computed inside `calculateStdDev` around a caller-supplied `mean`. -/
def sampleVariance (values : List ℚ) (mean : ℚ) : ℚ :=
  ((values.map fun v => (v - mean) ^ 2).sum) / ((values.length - 1 : ℕ) : ℚ)

/-- `calculateStdDev(values, mean)`: `-1` when fewer than two samples,
otherwise the square root of the Bessel-corrected variance
(`noshookpupil.cpp:91-104`, `shookpupil.cpp:99-109`). -/
noncomputable def calculateStdDev (values : List ℚ) (mean : ℚ) : ℝ :=
  if values.length < 2 then -1 else Real.sqrt (sampleVariance values mean)

/-- The fourteen values returned by `calculatePupilAverages`, with the
field names following the index comment in both `main`s:
`[0]` avg luminance before, `[1]` avg left before, `[2]` left before size,
`[3]` sd left before, `[4]` avg right before, `[5]` right before size,
`[6]` sd right before, `[7]` avg luminance after, `[8]` avg left after,
`[9]` left after size, `[10]` sd left after, `[11]` avg right after,
`[12]` right after size, `[13]` sd right after. -/
structure AvgResult where
  avgLumBefore : ℚ
  avgLeftBefore : ℚ
  leftBeforeN : ℕ
  sdLeftBefore : ℝ
  avgRightBefore : ℚ
  rightBeforeN : ℕ
  sdRightBefore : ℝ
  avgLumAfter : ℚ
  avgLeftAfter : ℚ
  leftAfterN : ℕ
  sdLeftAfter : ℝ
  avgRightAfter : ℚ
  rightAfterN : ℕ
  sdRightAfter : ℝ

/-- The return statement shared by both variants of
`calculatePupilAverages`, applied to the collected before- and
after-window statistics.  NOTE: the final entry (`[13]`, "sd right after")
is transcribed faithfully from the source, which passes the BEFORE-window
right-eye samples: `calculateStdDev(rightbefore, avgRightBefore)`
(`noshookpupil.cpp:181`, `shookpupil.cpp:178`). -/
noncomputable def pupilAveragesCore (b a : WinStats) : AvgResult where
  avgLumBefore := windowAverage b.lumCount b.total b.lumSum
  avgLeftBefore := windowAverage b.leftCount b.total b.leftSum
  leftBeforeN := b.leftSamples.length
  sdLeftBefore := calculateStdDev b.leftSamples (windowAverage b.leftCount b.total b.leftSum)
  avgRightBefore := windowAverage b.rightCount b.total b.rightSum
  rightBeforeN := b.rightSamples.length
  sdRightBefore := calculateStdDev b.rightSamples (windowAverage b.rightCount b.total b.rightSum)
  avgLumAfter := windowAverage a.lumCount a.total a.lumSum
  avgLeftAfter := windowAverage a.leftCount a.total a.leftSum
  leftAfterN := a.leftSamples.length
  sdLeftAfter := calculateStdDev a.leftSamples (windowAverage a.leftCount a.total a.leftSum)
  avgRightAfter := windowAverage a.rightCount a.total a.rightSum
  rightAfterN := a.rightSamples.length
  sdRightAfter := calculateStdDev b.rightSamples (windowAverage b.rightCount b.total b.rightSum)

/-- `calculatePupilAverages` of `noshookpupil.cpp` (single-event
protocol), given the parsed rows and the time of the event row: the
before window is anchored at the "0.2 seconds" row's own time, the after
window at that time plus the fixed 0.229 offset. -/
noncomputable def noshookCalculatePupilAverages (rows : List Row) (eventRowTime : ℚ) : AvgResult :=
  let beforeTime := eventRowTime
  let eventTime := eventRowTime + 229 / 1000
  pupilAveragesCore (collectWindow (beforeTime - 5) beforeTime rows)
    (collectWindow eventTime (eventTime + 5) rows)

/-- `calculatePupilAverages` of `shookpupil.cpp` (dual-event protocol),
given the parsed rows, the time of the "0.2 seconds" row and the time of
the "shook" row: the after window is anchored at the shook row's raw
time, with no offset. -/
noncomputable def shookCalculatePupilAverages (rows : List Row) (t02 tShook : ℚ) : AvgResult :=
  pupilAveragesCore (collectWindow (t02 - 5) t02 rows)
    (collectWindow tShook (tShook + 5) rows)

/-- Invariant of the window accumulator: each eye's sum is the sum of its
pushed samples, its count is the number of pushed samples, all pushed
samples are strictly positive, and the luminance sum is nonnegative
(strictly positive as soon as any luminance sample was counted). -/
def WinInv (s : WinStats) : Prop :=
  s.leftSum = s.leftSamples.sum ∧ s.leftCount = s.leftSamples.length ∧
    (∀ x ∈ s.leftSamples, 0 < x) ∧
  s.rightSum = s.rightSamples.sum ∧ s.rightCount = s.rightSamples.length ∧
    (∀ x ∈ s.rightSamples, 0 < x) ∧
  0 ≤ s.lumSum ∧ (s.lumCount ≠ 0 → 0 < s.lumSum)

lemma winInv_empty : WinInv emptyWin := by
  refine ⟨rfl, rfl, ?_, rfl, rfl, ?_, le_refl _, ?_⟩ <;> simp [emptyWin]

lemma winInv_addRow (r : Row) (s : WinStats) (h : WinInv s) : WinInv (addRow r s) := by
  obtain ⟨h1, h2, h3, h4, h5, h6, h7, h8⟩ := h
  refine ⟨?_, ?_, ?_, ?_, ?_, ?_, ?_, ?_⟩
  · by_cases hl : 0 < r.left <;> simp [addRow, hl, h1]
  · by_cases hl : 0 < r.left <;> simp [addRow, hl, h2] <;> omega
  · intro x hx
    by_cases hl : 0 < r.left <;> simp [addRow, hl] at hx
    · rcases hx with rfl | hx
      · exact hl
      · exact h3 x hx
    · exact h3 x hx
  · by_cases hr : 0 < r.right <;> simp [addRow, hr, h4]
  · by_cases hr : 0 < r.right <;> simp [addRow, hr, h5] <;> omega
  · intro x hx
    by_cases hr : 0 < r.right <;> simp [addRow, hr] at hx
    · rcases hx with rfl | hx
      · exact hr
      · exact h6 x hx
    · exact h6 x hx
  · by_cases hu : 0 < r.lum <;> simp [addRow, hu]
    · exact add_nonneg (le_of_lt hu) h7
    · exact h7
  · intro hc
    by_cases hu : 0 < r.lum
    · have hs : (addRow r s).lumSum = r.lum + s.lumSum := by simp [addRow, hu]
      rw [hs]
      exact add_pos_of_pos_of_nonneg hu h7
    · have hs : (addRow r s).lumSum = s.lumSum := by simp [addRow, hu]
      have hcnt : (addRow r s).lumCount = s.lumCount := by simp [addRow, hu]
      rw [hs]
      rw [hcnt] at hc
      exact h8 hc

lemma winInv_collectWindow (lo hi : ℚ) (rows : List Row) :
    WinInv (collectWindow lo hi rows) := by
  induction rows with
  | nil => exact winInv_empty
  | cons r rest ih =>
      by_cases hw : lo ≤ r.time ∧ r.time ≤ hi
      · simpa [collectWindow_cons, hw] using winInv_addRow r _ ih
      · simpa [collectWindow_cons, hw] using ih

/-- The validity rule of `windowAverage`, under the accumulator
hypotheses supplied by `WinInv`: the sentinel `-1` is returned exactly
when the valid count is below half the total count, and otherwise the
returned value is `sum / count`. -/
lemma windowAverage_spec (count total : ℕ) (sum : ℚ) (hsum : 0 ≤ sum)
    (hpos : count ≠ 0 → 0 < sum) :
    (windowAverage count total sum = -1 ↔ 2 * count < total) ∧
      (total ≤ 2 * count → windowAverage count total sum = sum / (count : ℚ)) := by
  have hcond : ((total : ℚ) * (1 / 2) ≤ (count : ℚ)) ↔ total ≤ 2 * count := by
    constructor
    · intro h
      have h2 : (total : ℚ) ≤ 2 * (count : ℚ) := by linarith
      exact_mod_cast h2
    · intro h
      have h2 : (total : ℚ) ≤ 2 * (count : ℚ) := by exact_mod_cast h
      linarith
  constructor
  · constructor
    · intro hval
      by_contra hlt
      have hle : total ≤ 2 * count := not_lt.mp hlt
      have : windowAverage count total sum = sum / (count : ℚ) := by
        unfold windowAverage
        rw [if_pos (hcond.mpr hle)]
      rw [this] at hval
      rcases Nat.eq_zero_or_pos count with hc | hc
      · rw [hc] at hval
        norm_num at hval
      · have hs : 0 < sum := hpos (Nat.pos_iff_ne_zero.mp hc)
        have : (0 : ℚ) < sum / (count : ℚ) :=
          div_pos hs (by exact_mod_cast hc)
        rw [hval] at this
        norm_num at this
    · intro hlt
      unfold windowAverage
      rw [if_neg]
      intro hge
      exact absurd (hcond.mp hge) (not_le.mpr hlt)
  · intro hle
    unfold windowAverage
    rw [if_pos (hcond.mpr hle)]

/-- C1: for every extracted window of every quantity (left pupil, right
pupil, luminance), writing `k` for the quantity's valid-sample count and
`m` for the window's total sample count, the reported window value is the
sentinel `-1` iff `k < 0.5 * m`, and otherwise (in particular at the
boundary `k = 0.5 * m`) it equals `sum / k` over the valid samples; both
extractor variants produce their six reported values through exactly this
rule on their collected windows. -/
theorem window_validity (lo₁ hi₁ lo₂ hi₂ : ℚ) (rows : List Row) (t t02 tShook : ℚ) :
    (let b := collectWindow lo₁ hi₁ rows
     let a := collectWindow lo₂ hi₂ rows
     let r := pupilAveragesCore b a
     ((r.avgLeftBefore = -1 ↔ 2 * b.leftCount < b.total) ∧
       (b.total ≤ 2 * b.leftCount → r.avgLeftBefore = b.leftSum / (b.leftCount : ℚ))) ∧
     ((r.avgRightBefore = -1 ↔ 2 * b.rightCount < b.total) ∧
       (b.total ≤ 2 * b.rightCount → r.avgRightBefore = b.rightSum / (b.rightCount : ℚ))) ∧
     ((r.avgLumBefore = -1 ↔ 2 * b.lumCount < b.total) ∧
       (b.total ≤ 2 * b.lumCount → r.avgLumBefore = b.lumSum / (b.lumCount : ℚ))) ∧
     ((r.avgLeftAfter = -1 ↔ 2 * a.leftCount < a.total) ∧
       (a.total ≤ 2 * a.leftCount → r.avgLeftAfter = a.leftSum / (a.leftCount : ℚ))) ∧
     ((r.avgRightAfter = -1 ↔ 2 * a.rightCount < a.total) ∧
       (a.total ≤ 2 * a.rightCount → r.avgRightAfter = a.rightSum / (a.rightCount : ℚ))) ∧
     ((r.avgLumAfter = -1 ↔ 2 * a.lumCount < a.total) ∧
       (a.total ≤ 2 * a.lumCount → r.avgLumAfter = a.lumSum / (a.lumCount : ℚ)))) ∧
    noshookCalculatePupilAverages rows t =
      pupilAveragesCore (collectWindow (t - 5) t rows)
        (collectWindow (t + 229 / 1000) (t + 229 / 1000 + 5) rows) ∧
    shookCalculatePupilAverages rows t02 tShook =
      pupilAveragesCore (collectWindow (t02 - 5) t02 rows)
        (collectWindow tShook (tShook + 5) rows) := by
  obtain ⟨hb1, hb2, hb3, hb4, hb5, hb6, hb7, hb8⟩ := winInv_collectWindow lo₁ hi₁ rows
  obtain ⟨ha1, ha2, ha3, ha4, ha5, ha6, ha7, ha8⟩ := winInv_collectWindow lo₂ hi₂ rows
  refine ⟨⟨?_, ?_, ?_, ?_, ?_, ?_⟩, rfl, rfl⟩
  · refine windowAverage_spec _ _ _ (hb1 ▸ List.sum_nonneg fun x hx => le_of_lt (hb3 x hx)) ?_
    intro hc
    have hne : (collectWindow lo₁ hi₁ rows).leftSamples ≠ [] := by
      intro hnil
      rw [hb2, hnil] at hc
      exact hc rfl
    exact hb1 ▸ List.sum_pos _ hb3 hne
  · refine windowAverage_spec _ _ _ (hb4 ▸ List.sum_nonneg fun x hx => le_of_lt (hb6 x hx)) ?_
    intro hc
    have hne : (collectWindow lo₁ hi₁ rows).rightSamples ≠ [] := by
      intro hnil
      rw [hb5, hnil] at hc
      exact hc rfl
    exact hb4 ▸ List.sum_pos _ hb6 hne
  · exact windowAverage_spec _ _ _ hb7 hb8
  · refine windowAverage_spec _ _ _ (ha1 ▸ List.sum_nonneg fun x hx => le_of_lt (ha3 x hx)) ?_
    intro hc
    have hne : (collectWindow lo₂ hi₂ rows).leftSamples ≠ [] := by
      intro hnil
      rw [ha2, hnil] at hc
      exact hc rfl
    exact ha1 ▸ List.sum_pos _ ha3 hne
  · refine windowAverage_spec _ _ _ (ha4 ▸ List.sum_nonneg fun x hx => le_of_lt (ha6 x hx)) ?_
    intro hc
    have hne : (collectWindow lo₂ hi₂ rows).rightSamples ≠ [] := by
      intro hnil
      rw [ha5, hnil] at hc
      exact hc rfl
    exact ha4 ▸ List.sum_pos _ ha6 hne
  · exact windowAverage_spec _ _ _ ha7 ha8

/-- The window loop touches exactly the rows whose time lies in
`[lo, hi]`, in their original order. -/
lemma collectWindow_eq_filter (lo hi : ℚ) (rows : List Row) :
    collectWindow lo hi rows =
      collectAll (rows.filter fun r => decide (lo ≤ r.time ∧ r.time ≤ hi)) := by
  induction rows with
  | nil => rfl
  | cons r rest ih =>
      by_cases h : lo ≤ r.time ∧ r.time ≤ hi
      · simp [collectWindow_cons, collectAll_cons, List.filter_cons, h, ih]
      · simp [collectWindow_cons, List.filter_cons, h, ih]

/-- C6: the before window collects exactly the rows with time in
`[primaryAnchor - 5, primaryAnchor]` and the after window exactly the
rows with time in `[afterAnchor, afterAnchor + 5]`, where the after
anchor is `primaryAnchor + 0.229` in the single-event variant
(`noshookpupil.cpp`) and the raw time of the "shook" row, with no
offset, in the dual-event variant (`shookpupil.cpp`). -/
theorem window_membership (rows : List Row) (t t02 tShook : ℚ) :
    noshookCalculatePupilAverages rows t =
      pupilAveragesCore
        (collectAll (rows.filter fun r => decide (t - 5 ≤ r.time ∧ r.time ≤ t)))
        (collectAll (rows.filter fun r =>
          decide (t + 229 / 1000 ≤ r.time ∧ r.time ≤ t + 229 / 1000 + 5))) ∧
    shookCalculatePupilAverages rows t02 tShook =
      pupilAveragesCore
        (collectAll (rows.filter fun r => decide (t02 - 5 ≤ r.time ∧ r.time ≤ t02)))
        (collectAll (rows.filter fun r =>
          decide (tShook ≤ r.time ∧ r.time ≤ tShook + 5))) := by
  constructor
  · show pupilAveragesCore (collectWindow (t - 5) t rows)
        (collectWindow (t + 229 / 1000) (t + 229 / 1000 + 5) rows) = _
    rw [collectWindow_eq_filter, collectWindow_eq_filter]
  · show pupilAveragesCore (collectWindow (t02 - 5) t02 rows)
        (collectWindow tShook (tShook + 5) rows) = _
    rw [collectWindow_eq_filter, collectWindow_eq_filter]

/-- Field-level description of the full accumulator: the sample lists
hold exactly the strictly positive values, the luminance count counts
exactly the strictly positive luminances, and `total` counts every
processed row. -/
lemma collectAll_fields (rows : List Row) :
    (collectAll rows).leftSamples =
      rows.filterMap (fun r => if 0 < r.left then some r.left else none) ∧
    (collectAll rows).rightSamples =
      rows.filterMap (fun r => if 0 < r.right then some r.right else none) ∧
    (collectAll rows).lumCount = (rows.filter fun r => decide (0 < r.lum)).length ∧
    (collectAll rows).total = rows.length := by
  induction rows with
  | nil => exact ⟨rfl, rfl, rfl, rfl⟩
  | cons r rest ih =>
      obtain ⟨i1, i2, i3, i4⟩ := ih
      refine ⟨?_, ?_, ?_, ?_⟩
      · by_cases h : 0 < r.left <;>
          simp [collectAll_cons, addRow, h, i1, List.filterMap_cons]
      · by_cases h : 0 < r.right <;>
          simp [collectAll_cons, addRow, h, i2, List.filterMap_cons]
      · by_cases h : 0 < r.lum <;>
          simp [collectAll_cons, addRow, h, i3, List.filter_cons] <;> omega
      · simp [collectAll_cons, addRow, i4]
        omega

lemma windowAverage_cond (count total : ℕ) :
    ((total : ℚ) * (1 / 2) ≤ (count : ℚ)) ↔ total ≤ 2 * count := by
  constructor
  · intro h
    have h2 : (total : ℚ) ≤ 2 * (count : ℚ) := by linarith
    exact_mod_cast h2
  · intro h
    have h2 : (total : ℚ) ≤ 2 * (count : ℚ) := by exact_mod_cast h
    linarith

/-- Over a window holding at least one row, the reported value is either
the sentinel or strictly positive. -/
lemma windowAverage_valid_pos (count total : ℕ) (sum : ℚ)
    (hpos : count ≠ 0 → 0 < sum) (htot : 1 ≤ total) :
    windowAverage count total sum = -1 ∨ 0 < windowAverage count total sum := by
  by_cases hle : total ≤ 2 * count
  · right
    have hc : count ≠ 0 := by omega
    have hval : windowAverage count total sum = sum / (count : ℚ) := by
      unfold windowAverage
      rw [if_pos ((windowAverage_cond count total).mpr hle)]
    rw [hval]
    exact div_pos (hpos hc) (by exact_mod_cast Nat.pos_iff_ne_zero.mpr hc)
  · left
    unfold windowAverage
    rw [if_neg]
    intro hge
    exact hle ((windowAverage_cond count total).mp hge)

/-- C10 (amended): a pupil or luminance sample contributes to a window's
sum, valid count and stddev sample list only if its value is strictly
greater than 0 — zero and all negative values are excluded — while the
containing row still increments the window's total sample count; and for
a window holding at least one row, every reported window value is the
sentinel `-1` or strictly positive.  (For a window holding no row at all
the code computes `0/0`, which is neither.) -/
theorem positive_sample_rule (lo hi : ℚ) (rows : List Row) :
    (let s := collectWindow lo hi rows
     let inWin := rows.filter fun r => decide (lo ≤ r.time ∧ r.time ≤ hi)
     s.leftSamples = inWin.filterMap (fun r => if 0 < r.left then some r.left else none) ∧
     s.rightSamples = inWin.filterMap (fun r => if 0 < r.right then some r.right else none) ∧
     s.lumCount = (inWin.filter fun r => decide (0 < r.lum)).length ∧
     s.total = inWin.length ∧
     (1 ≤ s.total →
       windowAverage s.leftCount s.total s.leftSum = -1 ∨
         0 < windowAverage s.leftCount s.total s.leftSum) ∧
     (1 ≤ s.total →
       windowAverage s.rightCount s.total s.rightSum = -1 ∨
         0 < windowAverage s.rightCount s.total s.rightSum) ∧
     (1 ≤ s.total →
       windowAverage s.lumCount s.total s.lumSum = -1 ∨
         0 < windowAverage s.lumCount s.total s.lumSum)) := by
  obtain ⟨h1, h2, h3, h4, h5, h6, h7, h8⟩ := winInv_collectWindow lo hi rows
  have hfields := collectAll_fields (rows.filter fun r => decide (lo ≤ r.time ∧ r.time ≤ hi))
  rw [← collectWindow_eq_filter] at hfields
  obtain ⟨f1, f2, f3, f4⟩ := hfields
  refine ⟨f1, f2, f3, f4, ?_, ?_, ?_⟩
  · intro htot
    refine windowAverage_valid_pos _ _ _ ?_ htot
    intro hc
    have hne : (collectWindow lo hi rows).leftSamples ≠ [] := by
      intro hnil
      rw [h2, hnil] at hc
      exact hc rfl
    exact h1 ▸ List.sum_pos _ h3 hne
  · intro htot
    refine windowAverage_valid_pos _ _ _ ?_ htot
    intro hc
    have hne : (collectWindow lo hi rows).rightSamples ≠ [] := by
      intro hnil
      rw [h5, hnil] at hc
      exact hc rfl
    exact h4 ▸ List.sum_pos _ h6 hne
  · intro htot
    exact windowAverage_valid_pos _ _ _ h8 htot

/-- C10, counterexample to the claim as stated: a recording whose single
row lies outside both windows gives an after window with zero total
samples; the reported after-window left mean is then `0/0` — not the
sentinel `-1`, yet not strictly positive either. -/
theorem positive_sample_rule_counterexample :
    (noshookCalculatePupilAverages [⟨20, 3, 3, 3⟩] 0).avgLeftAfter ≠ -1 ∧
      ¬(0 < (noshookCalculatePupilAverages [⟨20, 3, 3, 3⟩] 0).avgLeftAfter) := by
  have h : (noshookCalculatePupilAverages [⟨20, 3, 3, 3⟩] 0).avgLeftAfter = 0 := by
    simp only [noshookCalculatePupilAverages, pupilAveragesCore]
    norm_num [collectWindow, emptyWin, windowAverage]
  rw [h]
  norm_num

/-- Witness for `positive_sample_rule` at a concrete one-row window. -/
theorem positive_sample_rule_witness :
    windowAverage (collectWindow 0 1 [⟨0, 2, 3, 4⟩]).leftCount
        (collectWindow 0 1 [⟨0, 2, 3, 4⟩]).total
        (collectWindow 0 1 [⟨0, 2, 3, 4⟩]).leftSum = -1 ∨
      0 < windowAverage (collectWindow 0 1 [⟨0, 2, 3, 4⟩]).leftCount
        (collectWindow 0 1 [⟨0, 2, 3, 4⟩]).total
        (collectWindow 0 1 [⟨0, 2, 3, 4⟩]).leftSum :=
  (positive_sample_rule 0 1 [⟨0, 2, 3, 4⟩]).2.2.2.2.1 (by decide)

/-- `computeStats` of `luminance.cpp:13-30`: average and sample variance
of a list, `(0, 0)` for an empty list, variance `0` when `n = 1`. -/
def computeStats (values : List ℚ) : ℚ × ℚ :=
  if values = [] then (0, 0)
  else
    let sum := values.sum
    let sumSq := (values.map fun v => v * v).sum
    let n := values.length
    (sum / (n : ℚ),
      if 1 < n then (sumSq - sum * sum / (n : ℚ)) / ((n - 1 : ℕ) : ℚ) else 0)

/-- The running accumulator `Stats` of `pupilsizecal.cpp:92-98`.  The
C++ seeds `minVal`/`maxVal` with the extreme representable doubles; ℚ has
no extreme values, so the never-updated state is modelled as `none`. -/
structure Stats where
  sum : ℚ
  sumSq : ℚ
  count : ℕ
  minVal : Option ℚ
  maxVal : Option ℚ

def initStats : Stats := ⟨0, 0, 0, none, none⟩

/-- `updateStats` of `pupilsizecal.cpp:100-108`: ignores the sentinel
`-1`, otherwise accumulates sum, sum of squares, count, min and max. -/
def updateStats (stats : Stats) (value : ℚ) : Stats :=
  if value = -1 then stats
  else
    { sum := stats.sum + value
      sumSq := stats.sumSq + value * value
      count := stats.count + 1
      minVal := some (stats.minVal.elim value fun m => min m value)
      maxVal := some (stats.maxVal.elim value fun m => max m value) }

/-- The average and variance printed by `computeAndPrintStats`
(`pupilsizecal.cpp:110-121`): `none` when the count is zero, variance `0`
when the count is one. -/
def statsAvgVar (stats : Stats) : Option (ℚ × ℚ) :=
  if stats.count = 0 then none
  else some (stats.sum / (stats.count : ℚ),
    if 1 < stats.count then
      (stats.sumSq - stats.sum * stats.sum / (stats.count : ℚ)) / ((stats.count - 1 : ℕ) : ℚ)
    else 0)

lemma sum_sq_sub (l : List ℚ) (μ : ℚ) :
    (l.map fun v => (v - μ) ^ 2).sum
      = (l.map fun v => v * v).sum - 2 * μ * l.sum + (l.length : ℚ) * μ ^ 2 := by
  induction l with
  | nil => simp
  | cons x xs ih =>
      simp only [List.map_cons, List.sum_cons, ih, List.length_cons]
      push_cast
      ring

/-- Around the true mean `sum / n`, the sum of squared deviations equals
`Σx² - (Σx)² / n`. -/
lemma sum_sq_dev_eq (l : List ℚ) (hne : l ≠ []) :
    (l.map fun v => (v - l.sum / (l.length : ℚ)) ^ 2).sum
      = (l.map fun v => v * v).sum - l.sum * l.sum / (l.length : ℚ) := by
  have hn : (l.length : ℚ) ≠ 0 := by
    have := List.length_pos.mpr hne
    positivity
  rw [sum_sq_sub]
  field_simp
  ring

lemma updateStats_sum (s : Stats) (x : ℚ) (hx : x ≠ -1) :
    (updateStats s x).sum = s.sum + x := by
  simp [updateStats, hx]

lemma updateStats_sumSq (s : Stats) (x : ℚ) (hx : x ≠ -1) :
    (updateStats s x).sumSq = s.sumSq + x * x := by
  simp [updateStats, hx]

lemma updateStats_count (s : Stats) (x : ℚ) (hx : x ≠ -1) :
    (updateStats s x).count = s.count + 1 := by
  simp [updateStats, hx]

lemma foldl_updateStats (l : List ℚ) (s : Stats) (h : ∀ v ∈ l, v ≠ -1) :
    (l.foldl updateStats s).sum = s.sum + l.sum ∧
      (l.foldl updateStats s).sumSq = s.sumSq + (l.map fun v => v * v).sum ∧
      (l.foldl updateStats s).count = s.count + l.length := by
  induction l generalizing s with
  | nil => simp
  | cons x xs ih =>
      have hx : x ≠ -1 := h x (by simp)
      have hxs : ∀ v ∈ xs, v ≠ -1 := fun v hv => h v (by simp [hv])
      obtain ⟨e1, e2, e3⟩ := ih (updateStats s x) hxs
      refine ⟨?_, ?_, ?_⟩
      · rw [List.foldl_cons, e1, updateStats_sum s x hx, List.sum_cons]
        ring
      · rw [List.foldl_cons, e2, updateStats_sumSq s x hx, List.map_cons, List.sum_cons]
        ring
      · rw [List.foldl_cons, e3, updateStats_count s x hx, List.length_cons]
        omega

/-- C9: for every non-empty sample list the computed mean is `sum / n`
and the computed variance is the Bessel-corrected
`(Σx² - (Σx)² / n) / (n - 1)`, equivalently `Σ(x - mean)² / (n - 1)`;
a single-element list makes `calculateStdDev` report the sentinel `-1`.
Covers `calculateStdDev` (`noshookpupil.cpp` / `shookpupil.cpp`),
`computeStats` (`luminance.cpp`) and the statistics printed by
`computeAndPrintStats` (`pupilsizecal.cpp`). -/
theorem stats_formulas (values : List ℚ) (hne : values ≠ []) :
    (values.length = 1 → ∀ mean, calculateStdDev values mean = -1) ∧
    (2 ≤ values.length → ∀ mean,
      calculateStdDev values mean = Real.sqrt (sampleVariance values mean)) ∧
    (sampleVariance values (values.sum / (values.length : ℚ))
      = ((values.map fun v => v * v).sum - values.sum * values.sum / (values.length : ℚ))
          / ((values.length - 1 : ℕ) : ℚ)) ∧
    ((computeStats values).1 = values.sum / (values.length : ℚ)) ∧
    (2 ≤ values.length →
      (computeStats values).2
        = ((values.map fun v => v * v).sum - values.sum * values.sum / (values.length : ℚ))
            / ((values.length - 1 : ℕ) : ℚ) ∧
      (computeStats values).2
        = (values.map fun v => (v - values.sum / (values.length : ℚ)) ^ 2).sum
            / ((values.length - 1 : ℕ) : ℚ)) ∧
    ((∀ v ∈ values, v ≠ -1) →
      statsAvgVar (values.foldl updateStats initStats)
        = some (values.sum / (values.length : ℚ),
            if 1 < values.length then
              ((values.map fun v => v * v).sum - values.sum * values.sum / (values.length : ℚ))
                / ((values.length - 1 : ℕ) : ℚ)
            else 0)) := by
  have hlen : 0 < values.length := List.length_pos.mpr hne
  refine ⟨?_, ?_, ?_, ?_, ?_, ?_⟩
  · intro h1 mean
    unfold calculateStdDev
    rw [if_pos (by omega)]
  · intro h2 mean
    unfold calculateStdDev
    rw [if_neg (by omega)]
  · unfold sampleVariance
    rw [sum_sq_dev_eq values hne]
  · unfold computeStats
    rw [if_neg hne]
  · intro h2
    have hvar : (computeStats values).2
        = ((values.map fun v => v * v).sum - values.sum * values.sum / (values.length : ℚ))
            / ((values.length - 1 : ℕ) : ℚ) := by
      unfold computeStats
      rw [if_neg hne]
      simp only
      rw [if_pos (by omega)]
    refine ⟨hvar, ?_⟩
    rw [hvar, sum_sq_dev_eq values hne]
  · intro hval
    obtain ⟨e1, e2, e3⟩ := foldl_updateStats values initStats hval
    have hc : (values.foldl updateStats initStats).count = values.length := by
      rw [e3]
      simp [initStats]
    have hs : (values.foldl updateStats initStats).sum = values.sum := by
      rw [e1]
      simp [initStats]
    have hq : (values.foldl updateStats initStats).sumSq = (values.map fun v => v * v).sum := by
      rw [e2]
      simp [initStats]
    unfold statsAvgVar
    rw [if_neg (by rw [hc]; omega)]
    rw [hs, hq, hc]

/-- Witness for `stats_formulas` at the two-element list `[1, 3]`. -/
theorem stats_formulas_witness : (computeStats [(1 : ℚ), 3]).1 = 2 := by
  rw [(stats_formulas [(1 : ℚ), 3] (by simp)).2.2.2.1]
  norm_num [List.sum_cons]

/-- The four-row recording exhibiting the right-eye `stdAfter` slip: the
before window `[5, 10]` holds right-eye samples `{1, 3}` (stddev `√2`),
the after window `[100, 105]` holds right-eye samples `{5, 5}`
(stddev `0`). -/
def bugRows : List Row := [⟨6, 2, 1, 3⟩, ⟨7, 2, 3, 3⟩, ⟨100, 2, 5, 3⟩, ⟨101, 2, 5, 3⟩]

/-- C5: evaluation at the failing input.  The value the dual-event
extractor reports in the right-eye `stdAfter` slot (`[13]`, written to
the right-eye summary line) is `√2`, the stddev of the BEFORE-window
right-eye samples, and differs from the stddev of the after-window
right-eye samples, which is `0` — the source passes `rightbefore` where
its own index comment says "sd right after"
(`shookpupil.cpp:178`, `noshookpupil.cpp:181`). -/
theorem right_stdAfter_bug :
    (shookCalculatePupilAverages bugRows 10 100).sdRightAfter = Real.sqrt 2 ∧
    calculateStdDev (collectWindow 100 (100 + 5) bugRows).rightSamples
        ((shookCalculatePupilAverages bugRows 10 100).avgRightAfter) = 0 ∧
    Real.sqrt 2 ≠ 0 := by
  have hb : collectWindow (10 - 5) 10 bugRows = ⟨4, 2, [2, 2], 4, 2, [1, 3], 6, 2, 2⟩ := by
    norm_num [bugRows, collectWindow, addRow, emptyWin]
  have ha : collectWindow 100 (100 + 5) bugRows = ⟨4, 2, [2, 2], 10, 2, [5, 5], 6, 2, 2⟩ := by
    norm_num [bugRows, collectWindow, addRow, emptyWin]
  have havg : windowAverage 2 2 (4 : ℚ) = 2 := by
    norm_num [windowAverage]
  have havg5 : windowAverage 2 2 (10 : ℚ) = 5 := by
    norm_num [windowAverage]
  refine ⟨?_, ?_, ?_⟩
  · show calculateStdDev (collectWindow (10 - 5) 10 bugRows).rightSamples
        (windowAverage (collectWindow (10 - 5) 10 bugRows).rightCount
          (collectWindow (10 - 5) 10 bugRows).total
          (collectWindow (10 - 5) 10 bugRows).rightSum) = Real.sqrt 2
    rw [hb]
    show calculateStdDev [1, 3] (windowAverage 2 2 4) = Real.sqrt 2
    rw [havg]
    unfold calculateStdDev
    rw [if_neg (by norm_num)]
    have hv : sampleVariance [1, 3] 2 = 2 := by
      norm_num [sampleVariance]
    rw [hv]
    norm_num
  · show calculateStdDev (collectWindow 100 (100 + 5) bugRows).rightSamples
        (windowAverage (collectWindow 100 (100 + 5) bugRows).rightCount
          (collectWindow 100 (100 + 5) bugRows).total
          (collectWindow 100 (100 + 5) bugRows).rightSum) = 0
    rw [ha]
    show calculateStdDev [5, 5] (windowAverage 2 2 10) = 0
    rw [havg5]
    unfold calculateStdDev
    rw [if_neg (by norm_num)]
    have hv : sampleVariance [5, 5] 5 = 0 := by
      norm_num [sampleVariance]
    rw [hv]
    norm_num
  · have := Real.sqrt_pos.mpr (by norm_num : (0 : ℝ) < 2)
    exact ne_of_gt this

/-- Witness for `window_validity` at a one-row window: the reported
left-eye before value equals `sum / count`. -/
theorem window_validity_witness :
    (pupilAveragesCore (collectWindow 0 1 [⟨0, 2, 3, 4⟩])
        (collectWindow 0 1 [⟨0, 2, 3, 4⟩])).avgLeftBefore
      = (collectWindow 0 1 [⟨0, 2, 3, 4⟩]).leftSum
          / ((collectWindow 0 1 [⟨0, 2, 3, 4⟩]).leftCount : ℚ) :=
  (window_validity 0 1 0 1 [⟨0, 2, 3, 4⟩] 0 0 0).1.1.2 (by decide)

/-- `computeTTest` of `t_test_after.cpp:89-99`, parametrised by the
CDF family `tcdf d x` standing for boost's
`cdf(students_t_distribution(d), x)` (an external library function, not
part of this repository): sentinel `-1` when either sample size is below
2 or the pooled variance is zero, otherwise the two-tailed p-value
`2 * (1 - tcdf df |t|)` with `df = min n1 n2 - 1` and
`t = (mean1 - mean2) / sqrt(std1²/n1 + std2²/n2)`. -/
noncomputable def computeTTest (tcdf : ℤ → ℝ → ℝ) (mean1 std1 : ℚ) (n1 : ℤ)
    (mean2 std2 : ℚ) (n2 : ℤ) : ℝ :=
  if n1 < 2 ∨ n2 < 2 then -1
  else if std1 ^ 2 / (n1 : ℚ) + std2 ^ 2 / (n2 : ℚ) = 0 then -1
  else 2 * (1 - tcdf (min n1 n2 - 1)
    |((mean1 - mean2 : ℚ) : ℝ) /
      Real.sqrt ((std1 ^ 2 / (n1 : ℚ) + std2 ^ 2 / (n2 : ℚ) : ℚ) : ℝ)|)

/-- C2: `computeTTest` returns the sentinel `-1` exactly when `n1 < 2` or
`n2 < 2` or the pooled variance `std1²/n1 + std2²/n2` is exactly zero;
in every other case it returns `2 * (1 - F(|t|))` with
`t = (mean1 - mean2)/sqrt(pooledVar)` and `F = tcdf (min n1 n2 - 1)`,
and that value lies in `[0, 1]`.  The CDF is abstracted by the two
properties of a Student's t CDF the claim needs: for df `≥ 1` and
argument `≥ 0` it lies in `[1/2, 1]`. -/
theorem computeTTest_spec (tcdf : ℤ → ℝ → ℝ)
    (hcdf : ∀ d x, 1 ≤ d → 0 ≤ x → 1 / 2 ≤ tcdf d x ∧ tcdf d x ≤ 1)
    (mean1 std1 : ℚ) (n1 : ℤ) (mean2 std2 : ℚ) (n2 : ℤ) :
    (computeTTest tcdf mean1 std1 n1 mean2 std2 n2 = -1 ↔
      (n1 < 2 ∨ n2 < 2 ∨ std1 ^ 2 / (n1 : ℚ) + std2 ^ 2 / (n2 : ℚ) = 0)) ∧
    (2 ≤ n1 → 2 ≤ n2 → std1 ^ 2 / (n1 : ℚ) + std2 ^ 2 / (n2 : ℚ) ≠ 0 →
      computeTTest tcdf mean1 std1 n1 mean2 std2 n2
          = 2 * (1 - tcdf (min n1 n2 - 1)
              |((mean1 - mean2 : ℚ) : ℝ) /
                Real.sqrt ((std1 ^ 2 / (n1 : ℚ) + std2 ^ 2 / (n2 : ℚ) : ℚ) : ℝ)|) ∧
        0 ≤ computeTTest tcdf mean1 std1 n1 mean2 std2 n2 ∧
        computeTTest tcdf mean1 std1 n1 mean2 std2 n2 ≤ 1) := by
  by_cases h12 : n1 < 2 ∨ n2 < 2
  · constructor
    · unfold computeTTest
      rw [if_pos h12]
      refine ⟨fun _ => ?_, fun _ => rfl⟩
      rcases h12 with h | h
      · exact Or.inl h
      · exact Or.inr (Or.inl h)
    · intro ha hb _
      rcases h12 with h | h <;> omega
  · by_cases hpv : std1 ^ 2 / (n1 : ℚ) + std2 ^ 2 / (n2 : ℚ) = 0
    · constructor
      · unfold computeTTest
        rw [if_neg h12, if_pos hpv]
        exact ⟨fun _ => Or.inr (Or.inr hpv), fun _ => rfl⟩
      · intro _ _ hne
        exact absurd hpv hne
    · have hn1 : 2 ≤ n1 := by omega
      have hn2 : 2 ≤ n2 := by omega
      have hval : computeTTest tcdf mean1 std1 n1 mean2 std2 n2
          = 2 * (1 - tcdf (min n1 n2 - 1)
              |((mean1 - mean2 : ℚ) : ℝ) /
                Real.sqrt ((std1 ^ 2 / (n1 : ℚ) + std2 ^ 2 / (n2 : ℚ) : ℚ) : ℝ)|) := by
        unfold computeTTest
        rw [if_neg h12, if_neg hpv]
      have hd : (1 : ℤ) ≤ min n1 n2 - 1 := by omega
      have hx : (0 : ℝ) ≤
          |((mean1 - mean2 : ℚ) : ℝ) /
            Real.sqrt ((std1 ^ 2 / (n1 : ℚ) + std2 ^ 2 / (n2 : ℚ) : ℚ) : ℝ)| :=
        abs_nonneg _
      obtain ⟨hF1, hF2⟩ := hcdf _ _ hd hx
      have hlow : 0 ≤ computeTTest tcdf mean1 std1 n1 mean2 std2 n2 := by
        rw [hval]
        linarith
      have hhigh : computeTTest tcdf mean1 std1 n1 mean2 std2 n2 ≤ 1 := by
        rw [hval]
        linarith
      constructor
      · constructor
        · intro hsent
          rw [hsent] at hlow
          norm_num at hlow
        · intro hcases
          rcases hcases with h | h | h
          · omega
          · omega
          · exact absurd h hpv
      · intro _ _ _
        exact ⟨hval, hlow, hhigh⟩

/-- Witness for `computeTTest_spec`: with the constant-`1/2` CDF (which
satisfies the Student-CDF hypotheses) and two samples of size 2, the
p-value is defined and lies in `[0, 1]`. -/
theorem computeTTest_spec_witness :
    0 ≤ computeTTest (fun _ _ => 1 / 2) 0 1 2 0 1 2 ∧
      computeTTest (fun _ _ => 1 / 2) 0 1 2 0 1 2 ≤ 1 := by
  have h := (computeTTest_spec (fun _ _ => 1 / 2)
      (by intro d x _ _; norm_num) 0 1 2 0 1 2).2
      (by norm_num) (by norm_num) (by norm_num)
  exact ⟨h.2.1, h.2.2⟩

/-- `PupilData` of `t_test_after.cpp:26-31`. -/
structure PupilData where
  luminance : ℚ
  avgSize : ℚ
  count : ℤ
  stdDev : ℚ
deriving DecidableEq

/-- The "no data" row `{-1, -1, -1, -1}` returned for an empty mapping. -/
def sentinelPupil : PupilData := ⟨-1, -1, -1, -1⟩

/-- A `std::map<double, PupilData>` is modelled as its ordered sequence
of (key, value) entries: a list of pairs whose keys are strictly
increasing (hypothesis `List.Pairwise (fun a b => a.1 < b.1)` in the
theorems). -/
def lbIdx (m : List (ℚ × PupilData)) (t : ℚ) : ℕ :=
  m.foldr (fun e k => if t ≤ e.1 then 0 else k + 1) 0

lemma lbIdx_nil (t : ℚ) : lbIdx [] t = 0 := rfl

lemma lbIdx_cons (e : ℚ × PupilData) (rest : List (ℚ × PupilData)) (t : ℚ) :
    lbIdx (e :: rest) t = if t ≤ e.1 then 0 else lbIdx rest t + 1 := by
  simp only [lbIdx, List.foldr_cons]

def entryAt (m : List (ℚ × PupilData)) (i : ℕ) : ℚ × PupilData :=
  m.getD i (0, sentinelPupil)

/-- `getClosestLuminanceMatch` of `t_test_after.cpp:77-86`: sentinel row
for an empty mapping; otherwise `lower_bound(target)` with its three
cases — `end()` takes the last entry, `begin()` takes the first, and in
the middle the strictly closer of the two neighbours, the lower-bound
entry itself on a distance tie. -/
def getClosestLuminanceMatch (m : List (ℚ × PupilData)) (t : ℚ) : PupilData :=
  if m.isEmpty then sentinelPupil
  else
    let i := lbIdx m t
    if i = m.length then (entryAt m (m.length - 1)).2
    else if i = 0 then (entryAt m 0).2
    else if |(entryAt m (i - 1)).1 - t| < |(entryAt m i).1 - t| then (entryAt m (i - 1)).2
    else (entryAt m i).2

lemma getClosest_of_ne (m : List (ℚ × PupilData)) (t : ℚ) (hm : m ≠ []) :
    getClosestLuminanceMatch m t =
      (let i := lbIdx m t
       if i = m.length then (entryAt m (m.length - 1)).2
       else if i = 0 then (entryAt m 0).2
       else if |(entryAt m (i - 1)).1 - t| < |(entryAt m i).1 - t| then (entryAt m (i - 1)).2
       else (entryAt m i).2) := by
  unfold getClosestLuminanceMatch
  rw [if_neg (by simp [hm])]

lemma entryAt_get (m : List (ℚ × PupilData)) (i : ℕ) (h : i < m.length) :
    entryAt m i = m.get ⟨i, h⟩ := by
  induction m generalizing i with
  | nil => exact absurd h (by simp)
  | cons x xs ih =>
      cases i with
      | zero => rfl
      | succ j =>
          have hj : j < xs.length := by simpa [Nat.succ_lt_succ_iff] using h
          exact ih j hj

lemma entryAt_mem (m : List (ℚ × PupilData)) (i : ℕ) (h : i < m.length) :
    entryAt m i ∈ m := by
  rw [entryAt_get m i h]
  exact List.get_mem m i h

lemma key_lt_of_sorted (m : List (ℚ × PupilData))
    (hs : List.Pairwise (fun a b => a.1 < b.1) m) (i j : ℕ)
    (hij : i < j) (hj : j < m.length) : (entryAt m i).1 < (entryAt m j).1 := by
  have hi : i < m.length := lt_trans hij hj
  rw [entryAt_get m i hi, entryAt_get m j hj]
  exact List.pairwise_iff_get.mp hs ⟨i, hi⟩ ⟨j, hj⟩ hij

lemma key_le_of_sorted (m : List (ℚ × PupilData))
    (hs : List.Pairwise (fun a b => a.1 < b.1) m) (i j : ℕ)
    (hij : i ≤ j) (hj : j < m.length) : (entryAt m i).1 ≤ (entryAt m j).1 := by
  rcases eq_or_lt_of_le hij with rfl | h
  · exact le_refl _
  · exact le_of_lt (key_lt_of_sorted m hs i j h hj)

lemma lbIdx_le_length (m : List (ℚ × PupilData)) (t : ℚ) : lbIdx m t ≤ m.length := by
  induction m with
  | nil => simp [lbIdx_nil]
  | cons e rest ih =>
      by_cases h : t ≤ e.1 <;> simp [lbIdx_cons, h] <;> omega

lemma lbIdx_lt_key (m : List (ℚ × PupilData)) (t : ℚ) :
    ∀ j, j < lbIdx m t → (entryAt m j).1 < t := by
  induction m with
  | nil =>
      intro j hj
      simp [lbIdx_nil] at hj
  | cons e rest ih =>
      intro j hj
      by_cases h : t ≤ e.1
      · simp [lbIdx_cons, h] at hj
      · simp only [lbIdx_cons, if_neg h] at hj
        cases j with
        | zero => exact not_le.mp h
        | succ j' => exact ih j' (by omega)

lemma lbIdx_ge (m : List (ℚ × PupilData)) (t : ℚ) (h : lbIdx m t < m.length) :
    t ≤ (entryAt m (lbIdx m t)).1 := by
  induction m with
  | nil => simp at h
  | cons e rest ih =>
      by_cases hc : t ≤ e.1
      · have hl : lbIdx (e :: rest) t = 0 := by simp [lbIdx_cons, hc]
        rw [hl]
        exact hc
      · have hl : lbIdx (e :: rest) t = lbIdx rest t + 1 := by simp [lbIdx_cons, hc]
        rw [hl]
        have hlen : lbIdx rest t < rest.length := by
          rw [hl] at h
          simpa using h
        exact ih hlen

lemma lbIdx_eq_of_bounds (m : List (ℚ × PupilData)) (t : ℚ) (i : ℕ)
    (hi : i < m.length) (hlow : ∀ j, j < i → (entryAt m j).1 < t)
    (hhigh : t ≤ (entryAt m i).1) : lbIdx m t = i := by
  rcases lt_trichotomy (lbIdx m t) i with hc | hc | hc
  · have h1 := lbIdx_ge m t (lt_trans hc hi)
    have h2 := hlow (lbIdx m t) hc
    exact ((not_le.mpr h2) h1).elim
  · exact hc
  · have h2 := lbIdx_lt_key m t i hc
    exact ((not_le.mpr h2) hhigh).elim

/-- C3: for every calibration mapping (a `std::map`, so keys strictly
increasing) `getClosestLuminanceMatch` returns the sentinel row on an
empty mapping; a target equal to a stored luminance returns that exact
row; and for a non-empty mapping with no exact distance tie it returns a
row whose stored luminance minimises the absolute difference to the
target. -/
theorem getClosestLuminanceMatch_spec (m : List (ℚ × PupilData)) (t : ℚ)
    (hs : List.Pairwise (fun a b => a.1 < b.1) m) :
    (m = [] → getClosestLuminanceMatch m t = sentinelPupil) ∧
    (∀ p ∈ m, p.1 = t → getClosestLuminanceMatch m t = p.2) ∧
    ((∀ a ∈ m, ∀ b ∈ m, |a.1 - t| = |b.1 - t| → a.1 = b.1) → m ≠ [] →
      ∃ p ∈ m, getClosestLuminanceMatch m t = p.2 ∧
        ∀ q ∈ m, |p.1 - t| ≤ |q.1 - t|) := by
  refine ⟨?_, ?_, ?_⟩
  · intro hm
    rw [hm]
    rfl
  · intro p hp hpt
    obtain ⟨ip, hip⟩ := List.mem_iff_get.mp hp
    have hent : entryAt m ip.val = p := by
      rw [entryAt_get m ip.val ip.isLt]
      exact hip
    have hkey : (entryAt m ip.val).1 = t := by rw [hent, hpt]
    have hlb : lbIdx m t = ip.val := by
      refine lbIdx_eq_of_bounds m t ip.val ip.isLt ?_ (le_of_eq hkey.symm)
      intro j hj
      have := key_lt_of_sorted m hs j ip.val hj ip.isLt
      rw [hkey] at this
      exact this
    have hm : m ≠ [] := List.ne_nil_of_mem hp
    rw [getClosest_of_ne m t hm]
    simp only [hlb]
    rw [if_neg (by omega : ¬ ip.val = m.length)]
    by_cases h0 : ip.val = 0
    · rw [if_pos h0, ← h0, hent]
    · rw [if_neg h0, if_neg, hent]
      rw [hkey]
      simp
  · intro _ hm
    have hlen0 : 0 < m.length := List.length_pos.mpr hm
    have hle := lbIdx_le_length m t
    rw [getClosest_of_ne m t hm]
    by_cases hend : lbIdx m t = m.length
    · -- lower_bound == end(): every key is below the target
      have hall : ∀ j, j < m.length → (entryAt m j).1 < t := fun j hj =>
        lbIdx_lt_key m t j (hend ▸ hj)
      have hlast : m.length - 1 < m.length := by omega
      refine ⟨entryAt m (m.length - 1), entryAt_mem m _ hlast, ?_, ?_⟩
      · simp [hend]
      · intro q hq
        obtain ⟨jq, hjq⟩ := List.mem_iff_get.mp hq
        have hqe : entryAt m jq.val = q := by
          rw [entryAt_get m jq.val jq.isLt]
          exact hjq
        have h1 : (entryAt m jq.val).1 ≤ (entryAt m (m.length - 1)).1 :=
          key_le_of_sorted m hs jq.val (m.length - 1) (by omega) hlast
        have h2 : (entryAt m (m.length - 1)).1 < t := hall _ hlast
        have h3 : (entryAt m jq.val).1 < t := hall _ jq.isLt
        rw [← hqe]
        rw [abs_of_neg (by linarith), abs_of_neg (by linarith)]
        linarith
    · have hlt : lbIdx m t < m.length := lt_of_le_of_ne hle hend
      have hgei := lbIdx_ge m t hlt
      by_cases h0 : lbIdx m t = 0
      · -- lower_bound == begin(): every key is at or above the target
        refine ⟨entryAt m 0, entryAt_mem m 0 hlen0, ?_, ?_⟩
        · rw [h0, if_neg (by omega : ¬ (0 : ℕ) = m.length), if_pos rfl]
        · intro q hq
          obtain ⟨jq, hjq⟩ := List.mem_iff_get.mp hq
          have hqe : entryAt m jq.val = q := by
            rw [entryAt_get m jq.val jq.isLt]
            exact hjq
          have h1 : (entryAt m 0).1 ≤ (entryAt m jq.val).1 :=
            key_le_of_sorted m hs 0 jq.val (by omega) jq.isLt
          have h2 : t ≤ (entryAt m 0).1 := h0 ▸ hgei
          rw [← hqe]
          rw [abs_of_nonneg (by linarith), abs_of_nonneg (by linarith)]
          linarith
      · -- middle: compare the two neighbours of the target
        have h0lt : 0 < lbIdx m t := Nat.pos_of_ne_zero h0
        have hprev : lbIdx m t - 1 < m.length := by omega
        have hkeyprev : (entryAt m (lbIdx m t - 1)).1 < t :=
          lbIdx_lt_key m t _ (by omega)
        have hdl : |(entryAt m (lbIdx m t - 1)).1 - t| = t - (entryAt m (lbIdx m t - 1)).1 := by
          rw [abs_of_neg (by linarith)]
          ring
        have hdr : |(entryAt m (lbIdx m t)).1 - t| = (entryAt m (lbIdx m t)).1 - t :=
          abs_of_nonneg (by linarith)
        have hlow : ∀ j, j ≤ lbIdx m t - 1 → j < m.length →
            |(entryAt m (lbIdx m t - 1)).1 - t| ≤ |(entryAt m j).1 - t| := by
          intro j hj _
          have hk : (entryAt m j).1 ≤ (entryAt m (lbIdx m t - 1)).1 :=
            key_le_of_sorted m hs j _ hj hprev
          have hkt : (entryAt m j).1 < t := by linarith
          rw [hdl, abs_of_neg (by linarith)]
          linarith
        have hhigh : ∀ j, lbIdx m t ≤ j → j < m.length →
            |(entryAt m (lbIdx m t)).1 - t| ≤ |(entryAt m j).1 - t| := by
          intro j hj hjl
          have hk : (entryAt m (lbIdx m t)).1 ≤ (entryAt m j).1 :=
            key_le_of_sorted m hs _ j hj hjl
          rw [hdr, abs_of_nonneg (by linarith)]
          linarith
        by_cases hcmp : |(entryAt m (lbIdx m t - 1)).1 - t| < |(entryAt m (lbIdx m t)).1 - t|
        · refine ⟨entryAt m (lbIdx m t - 1), entryAt_mem m _ hprev, ?_, ?_⟩
          · rw [if_neg hend, if_neg h0, if_pos hcmp]
          · intro q hq
            obtain ⟨jq, hjq⟩ := List.mem_iff_get.mp hq
            have hqe : entryAt m jq.val = q := by
              rw [entryAt_get m jq.val jq.isLt]
              exact hjq
            rw [← hqe]
            rcases le_or_lt jq.val (lbIdx m t - 1) with hj | hj
            · exact hlow jq.val hj jq.isLt
            · have := hhigh jq.val (by omega) jq.isLt
              linarith
        · refine ⟨entryAt m (lbIdx m t), entryAt_mem m _ hlt, ?_, ?_⟩
          · rw [if_neg hend, if_neg h0, if_neg hcmp]
          · intro q hq
            obtain ⟨jq, hjq⟩ := List.mem_iff_get.mp hq
            have hqe : entryAt m jq.val = q := by
              rw [entryAt_get m jq.val jq.isLt]
              exact hjq
            rw [← hqe]
            rcases le_or_lt jq.val (lbIdx m t - 1) with hj | hj
            · have := hlow jq.val hj jq.isLt
              push_neg at hcmp
              linarith
            · exact hhigh jq.val (by omega) jq.isLt

/-- Witness for `getClosestLuminanceMatch_spec`: exact-key lookup in a
two-entry mapping returns the stored row. -/
theorem getClosestLuminanceMatch_spec_witness :
    getClosestLuminanceMatch [(10, ⟨10, 5, 5, 1⟩), (20, ⟨20, 6, 5, 1⟩)] 10
      = ⟨10, 5, 5, 1⟩ :=
  (getClosestLuminanceMatch_spec [(10, ⟨10, 5, 5, 1⟩), (20, ⟨20, 6, 5, 1⟩)] 10
      (by norm_num)).2.1 (10, ⟨10, 5, 5, 1⟩) (by simp) rfl

/-- C4, counterexample to the claim as stated: with stored luminances 10
and 20 and the exactly equidistant target 15, the lookup returns the row
of the HIGHER luminance 20 (the strict `<` in the comparison makes the
tie fall to the lower-bound entry `it`), not the row of the lower
luminance 10. -/
theorem tie_break_counterexample :
    getClosestLuminanceMatch [(10, ⟨10, 5, 5, 1⟩), (20, ⟨20, 6, 5, 1⟩)] 15
        = ⟨20, 6, 5, 1⟩ ∧
      (⟨20, 6, 5, 1⟩ : PupilData) ≠ ⟨10, 5, 5, 1⟩ := by
  constructor
  · have hl : lbIdx [((10 : ℚ), (⟨10, 5, 5, 1⟩ : PupilData)), (20, ⟨20, 6, 5, 1⟩)] 15 = 1 := by
      norm_num [lbIdx_cons, lbIdx_nil]
    rw [getClosest_of_ne _ _ (by simp)]
    simp only [hl]
    norm_num [entryAt]
  · decide

/-- C4 (amended): for a mapping whose entry `i` and its predecessor
surround the target — predecessor key strictly below `t`, key at `i` at
or above `t` — with the target exactly equidistant from the two keys,
`getClosestLuminanceMatch` returns the row of the HIGHER key (the
lower-bound candidate), not the lower one. -/
theorem tie_break_amended (m : List (ℚ × PupilData)) (t : ℚ) (i : ℕ)
    (h0 : 0 < i) (hi : i < m.length)
    (hs : List.Pairwise (fun a b => a.1 < b.1) m)
    (hlow : (entryAt m (i - 1)).1 < t)
    (hhigh : t ≤ (entryAt m i).1)
    (htie : t - (entryAt m (i - 1)).1 = (entryAt m i).1 - t) :
    getClosestLuminanceMatch m t = (entryAt m i).2 := by
  have hm : m ≠ [] := by
    intro hnil
    rw [hnil] at hi
    simp at hi
  have hlb : lbIdx m t = i := by
    refine lbIdx_eq_of_bounds m t i hi ?_ hhigh
    intro j hj
    have hj1 : j ≤ i - 1 := by omega
    have := key_le_of_sorted m hs j (i - 1) hj1 (by omega)
    linarith
  rw [getClosest_of_ne m t hm]
  simp only [hlb]
  rw [if_neg (by omega : ¬ i = m.length), if_neg (by omega : ¬ i = 0), if_neg]
  rw [abs_of_neg (by linarith), abs_of_nonneg (by linarith)]
  push_neg
  linarith

/-- Witness for `tie_break_amended` at the mapping `{10, 20}` and the
equidistant target 15. -/
theorem tie_break_amended_witness :
    getClosestLuminanceMatch [(10, ⟨10, 5, 5, 1⟩), (20, ⟨20, 6, 5, 1⟩)] 15
      = (entryAt [(10, ⟨10, 5, 5, 1⟩), (20, ⟨20, 6, 5, 1⟩)] 1).2 :=
  tie_break_amended [(10, ⟨10, 5, 5, 1⟩), (20, ⟨20, 6, 5, 1⟩)] 15 1
    (by norm_num) (by norm_num) (by norm_num)
    (by norm_num [entryAt]) (by norm_num [entryAt]) (by norm_num [entryAt])

/-- `needle` occurs as a contiguous substring (some suffix of the text
has it as a prefix): the model of C++ `s.find(needle) != string::npos`. -/
def subOccurs (n l : List Char) : Bool :=
  l.tails.any fun suf => n.isPrefixOf suf

def containsSub (needle s : String) : Bool := subOccurs needle.data s.data

/-- `trim`: strips leading and trailing whitespace
(`noshookpupil.cpp:25-34`, `shookpupil.cpp:25-34`). -/
def trimChars (l : List Char) : List Char :=
  ((l.dropWhile Char.isWhitespace).reverse.dropWhile Char.isWhitespace).reverse

def trim (s : String) : String := ⟨trimChars s.data⟩

/-- Index of the first list element satisfying `p` (`-1` when none): the
result of a first-match-wins scan returning `-1` on failure. -/
def firstIdxZ {α : Type} (l : List α) (p : α → Bool) : ℤ :=
  if l.findIdx p = l.length then -1 else (l.findIdx p : ℤ)

/-- Index of the last list element satisfying `p` (`-1` when none): the
result of a scan that overwrites its accumulator on every match. -/
def lastIdxZ {α : Type} (l : List α) (p : α → Bool) : ℤ :=
  if l.reverse.findIdx p = l.length then -1
  else ((l.length - 1 - l.reverse.findIdx p : ℕ) : ℤ)

/-- `findPupilColumns` (`noshookpupil.cpp:65-77`, `shookpupil.cpp:66-78`,
`pupilsizecal.cpp:65-77`): every header cell is tested (trimmed,
case-sensitive substring) against both markers, a later match
overwriting an earlier one — so the LAST matching column wins; `-1` when
a marker never matches. -/
def findPupilColumns (headerRow : List String) : ℤ × ℤ :=
  (lastIdxZ headerRow fun c => containsSub "leftPupil" (trim c),
   lastIdxZ headerRow fun c => containsSub "rightPupil" (trim c))

/-- `findEventRow` (`noshookpupil.cpp:80-89`): first data row (index
≥ 1, skipping the header) with any cell containing the marker, `-1` if
none. -/
def findEventRow (data : List (List String)) : ℤ :=
  let i := firstIdxZ (data.drop 1) fun row => row.any fun c => containsSub "0.2 seconds" c
  if i = -1 then -1 else i + 1

/-- The `robotEvent` header-column scan of `shookpupil.cpp:238-244`:
first column whose trimmed cell contains the marker (the loop breaks at
the first match), `-1` if none. -/
def findRobotEventColumn (headerRow : List String) : ℤ :=
  firstIdxZ headerRow fun c => containsSub "robotEvent" (trim c)

/-- `findEventRows` of `shookpupil.cpp:81-97`: one pass over the data
rows (index ≥ 1) restricted to the event column, remembering the first
row matching "0.2 seconds" and the first matching "shook"; a row shorter
than the event column index is skipped for both markers; either result
may stay `-1`.  (The `rowFor02 == -1` re-check and the break once both
are found make the scan keep exactly the first match of each marker.) -/
def findEventRows (data : List (List String)) (col : ℕ) : ℤ × ℤ :=
  let hit := fun (marker : String) (row : List String) =>
    decide (col < row.length) && containsSub marker ((row.get? col).getD "")
  let shift := fun (i : ℤ) => if i = -1 then (-1 : ℤ) else i + 1
  (shift (firstIdxZ (data.drop 1) (hit "0.2 seconds")),
   shift (firstIdxZ (data.drop 1) (hit "shook")))

/-- Reading a numeric cell at a signed column index.  `stod?` abstracts
C++ `stod` (success = `some`); a negative index, which in the C++ would
index the vector out of bounds, yields no value. -/
def stodCellZ (stod? : String → Option ℚ) (row : List String) (j : ℤ) : Option ℚ :=
  if 0 ≤ j then (row.get? j.toNat).bind stod? else none

/-- One loop iteration of `calculatePupilAverages` turning a raw CSV row
into a `Row`: the row-length guard
`data[i].size() <= max(leftPupilCol, rightPupilCol)` (whose
signed-to-unsigned conversion makes a negative max column index skip
every row), then the four `stod` calls under a single catch-all. -/
def parseRow (stod? : String → Option ℚ) (timeCol : ℕ) (leftCol rightCol : ℤ)
    (cells : List String) : Option Row :=
  if max leftCol rightCol < 0 then none
  else if (cells.length : ℤ) ≤ max leftCol rightCol then none
  else do
    let t ← (cells.get? timeCol).bind stod?
    let l ← stodCellZ stod? cells leftCol
    let r ← stodCellZ stod? cells rightCol
    let lu ← stodCellZ stod? cells (leftCol - 1)
    some ⟨t, l, r, lu⟩

/-- `calculatePupilAverages` of `noshookpupil.cpp` from the raw CSV: the
anchor time is `stod(data[eventRow][timeCol])`.  The `eventRow == -1`
guard (which in C++ returns a bare `{-1,-1,-1,-1}`) and an anchor row
whose time cell fails to parse (which in C++ throws out of the function)
are both modelled as `none`. -/
noncomputable def noshookCalcFromData (stod? : String → Option ℚ)
    (data : List (List String)) (timeCol : ℕ) (leftCol rightCol : ℤ)
    (eventRow : ℤ) : Option AvgResult :=
  if eventRow = -1 then none
  else do
    let anchorRow ← data.get? eventRow.toNat
    let bt ← (anchorRow.get? timeCol).bind stod?
    let rows := (data.drop 1).filterMap (parseRow stod? timeCol leftCol rightCol)
    some (noshookCalculatePupilAverages rows bt)

/-- `calculatePupilAverages` of `shookpupil.cpp` from the raw CSV: the
two anchors are the parsed times of the "0.2 seconds" row and of the
"shook" row. -/
noncomputable def shookCalcFromData (stod? : String → Option ℚ)
    (data : List (List String)) (timeCol : ℕ) (leftCol rightCol : ℤ)
    (rowFor02 rowForShook : ℤ) : Option AvgResult := do
  let row02 ← data.get? rowFor02.toNat
  let bt ← (row02.get? timeCol).bind stod?
  let rowSh ← data.get? rowForShook.toNat
  let ta ← (rowSh.get? timeCol).bind stod?
  let rows := (data.drop 1).filterMap (parseRow stod? timeCol leftCol rightCol)
  some (shookCalculatePupilAverages rows bt ta)

/-- One line of the shared per-eye summary files `leftpupil.txt` /
`rightpupil.txt`: `index luminanceBefore pupilBefore countBefore
stdBefore luminanceAfter pupilAfter countAfter stdAfter`
(`saveVectorToFile`). -/
structure SummaryLine where
  index : ℕ
  lumBefore : ℚ
  pupilBefore : ℚ
  countBefore : ℕ
  stdBefore : ℝ
  lumAfter : ℚ
  pupilAfter : ℚ
  countAfter : ℕ
  stdAfter : ℝ

/-- The left-eye line appended by both `main`s: only under the luminance
check `datalist[0] > 0 || datalist[7] > 0` and the left-eye validity
check `!(datalist[1] < 0 || datalist[8] < 0)`. -/
noncomputable def leftLine (idx : ℕ) (d : AvgResult) : Option SummaryLine :=
  if 0 < d.avgLumBefore ∨ 0 < d.avgLumAfter then
    if d.avgLeftBefore < 0 ∨ d.avgLeftAfter < 0 then none
    else some ⟨idx, d.avgLumBefore, d.avgLeftBefore, d.leftBeforeN, d.sdLeftBefore,
      d.avgLumAfter, d.avgLeftAfter, d.leftAfterN, d.sdLeftAfter⟩
  else none

/-- The right-eye line appended by both `main`s (fields `[4] [5] [6]` and
`[11] [12] [13]` of the datalist). -/
noncomputable def rightLine (idx : ℕ) (d : AvgResult) : Option SummaryLine :=
  if 0 < d.avgLumBefore ∨ 0 < d.avgLumAfter then
    if d.avgRightBefore < 0 ∨ d.avgRightAfter < 0 then none
    else some ⟨idx, d.avgLumBefore, d.avgRightBefore, d.rightBeforeN, d.sdRightBefore,
      d.avgLumAfter, d.avgRightAfter, d.rightAfterN, d.sdRightAfter⟩
  else none

/-- What one iteration of a `main` loop contributes for one subject
file: the lines appended to the two summary files, the indices inserted
into `missingEventIndices`, and whether `calculatePupilAverages` was
invoked at all. -/
structure StepResult where
  leftLines : List SummaryLine
  rightLines : List SummaryLine
  missingTally : List ℕ
  attempted : Bool

/-- The per-file body of `main` in `noshookpupil.cpp:224-269`: empty
data is skipped; the pupil columns are computed but NEVER validated; a
missing "0.2 seconds" row adds the index to `missingEventIndices` and
skips; otherwise extraction proceeds and the two summary lines are
appended subject to their validity checks. -/
noncomputable def noshookFileStep (stod? : String → Option ℚ) (idx : ℕ)
    (data : List (List String)) : StepResult :=
  if data.isEmpty then ⟨[], [], [], false⟩
  else
    let cols := findPupilColumns (data.headD [])
    if findEventRow data = -1 then ⟨[], [], [idx], false⟩
    else
      (noshookCalcFromData stod? data 0 cols.1 cols.2 (findEventRow data)).elim
        ⟨[], [], [], true⟩
        fun d => ⟨(leftLine idx d).toList, (rightLine idx d).toList, [], true⟩

/-- The per-file body of `main` in `shookpupil.cpp:220-287`: empty data,
a missing pupil column, a missing `robotEvent` column, or a missing
event row each skip the file.  NOTE (transcribed faithfully): the
missing-event branch at `shookpupil.cpp:252-255` does NOT insert the
index into `missingEventIndices` — the tally stays empty. -/
noncomputable def shookFileStep (stod? : String → Option ℚ) (idx : ℕ)
    (data : List (List String)) : StepResult :=
  if data.isEmpty then ⟨[], [], [], false⟩
  else
    let header := data.headD []
    let cols := findPupilColumns header
    if cols.1 = -1 ∨ cols.2 = -1 then ⟨[], [], [], false⟩
    else
      let ec := findRobotEventColumn header
      if ec = -1 then ⟨[], [], [], false⟩
      else
        let ers := findEventRows data ec.toNat
        if ers.1 = -1 ∨ ers.2 = -1 then ⟨[], [], [], false⟩
        else
          (shookCalcFromData stod? data 0 cols.1 cols.2 ers.1 ers.2).elim
            ⟨[], [], [], true⟩
            fun d => ⟨(leftLine idx d).toList, (rightLine idx d).toList, [], true⟩

/-- A dual-protocol recording whose event column carries the "0.2
seconds" marker but no "shook" marker. -/
def missData : List (List String) :=
  [["time", "leftPupil", "rightPupil", "robotEvent"],
   ["1", "2", "3", "0.2 seconds reached"]]

/-- C7: evaluation at the failing input.  In the dual-event variant a
subject whose "shook" marker is missing produces no summary line — but
is NOT recorded in the missing-event tally (`missingTally = []`),
because `shookpupil.cpp` never inserts into `missingEventIndices`; the
single-event variant does record such a subject (`missingTally =
[idx]`). -/
theorem shook_missing_tally_bug :
    (findEventRows missData 3).2 = -1 ∧
    shookFileStep (fun _ => none) 7 missData = ⟨[], [], [], false⟩ ∧
    noshookFileStep (fun _ => none) 7 [["time"], ["9"]] = ⟨[], [], [7], false⟩ := by
  refine ⟨rfl, rfl, rfl⟩

lemma lastIdxZ_none {α : Type} (l : List α) (p : α → Bool)
    (h : ∀ a ∈ l, p a = false) : lastIdxZ l p = -1 := by
  unfold lastIdxZ
  rw [if_pos]
  rw [List.findIdx_eq_length.mpr fun a ha => h a (List.mem_reverse.mp ha)]
  exact List.length_reverse l

/-- A single-protocol recording whose header carries neither pupil
marker but whose data row carries the event marker. -/
def noColsData : List (List String) :=
  [["time", "a", "b"], ["1", "2", "0.2 seconds"]]

/-- A dual-protocol recording whose left-pupil marker sits in header
column 0, making the positional luminance column `leftCol - 1 = -1`. -/
def lumColData : List (List String) :=
  [["leftPupil", "rightPupil", "robotEvent"], ["1", "2", "0.2 seconds shook"]]

/-- C8: `findPupilColumns` does return `-1` for a column whose marker is
absent from every header cell — but `noshookpupil.cpp`'s `main` never
checks the result: on a header with no pupil markers it still invokes
extraction (`attempted = true`) with both columns `-1`, while the
dual-event `main` skips the file; and no variant validates the luminance
column `leftCol - 1 ≥ 0`: with the left marker in column 0 the dual
variant proceeds to extraction with luminance column `-1`. -/
theorem noshook_column_check_bug :
    (∀ header, (∀ c ∈ header, containsSub "leftPupil" (trim c) = false) →
      (findPupilColumns header).1 = -1) ∧
    (∀ header, (∀ c ∈ header, containsSub "rightPupil" (trim c) = false) →
      (findPupilColumns header).2 = -1) ∧
    findPupilColumns ["time", "a", "b"] = (-1, -1) ∧
    (noshookFileStep (fun _ => none) 3 noColsData).attempted = true ∧
    (shookFileStep (fun _ => none) 3 noColsData).attempted = false ∧
    (findPupilColumns ["leftPupil", "rightPupil", "robotEvent"]).1 - 1 = -1 ∧
    (shookFileStep (fun _ => none) 3 lumColData).attempted = true := by
  refine ⟨?_, ?_, rfl, rfl, rfl, rfl, rfl⟩
  · intro header h
    exact lastIdxZ_none header _ h
  · intro header h
    exact lastIdxZ_none header _ h

/-- Witness for `noshook_column_check_bug`: a marker-free header yields
a `-1` left column. -/
theorem noshook_column_check_bug_witness : (findPupilColumns ["time"]).1 = -1 :=
  noshook_column_check_bug.1 ["time"] (by decide)

end Fire2
